import Mathlib

/-!
# Verification of the earthkit-data dimension/tensor core

A shallow embedding, in Lean 4, of the parts of the `emohawk` (earthkit-data)
repository that the specification's testable properties talk about:

* `src/earthkit/data/indexing/tensor.py` — `coords_to_index`, `index_to_coords`,
  `TensorCore.__getitem__` / `sel` / `isel` / `_subset` / `_subset_coords`,
  `FieldListTensor.__init__` / `from_tensor` / `from_fieldlist`;
* `src/earthkit/data/utils/xarray/dim.py` — the key tables, `Dim` and its
  predefined subclasses, `Dim.check` / `Dim.update` / `deactivate_drop_list`,
  `Dims.deactivate` and the variable-key phase of `Dims.__init__`;
* `src/earthkit/data/utils/dates.py` — `step_to_delta`;
* `src/earthkit/data/utils/xarray/coord.py` — `Coord.make`, `StepCoord.convert`.

Python metadata values are modelled by the sum type `Value` (integers and
strings); Python exceptions are modelled by `Except String`; `numpy`/Python
sequence indexing and slicing is modelled by explicit total functions with the
same out-of-range and negative-index rules.
-/

/-- A scalar metadata value: the embedding of the Python values that flow
through the dimension/coordinate engine (ints and strings). -/
inductive Value where
  | i (n : Int)
  | s (v : String)
deriving DecidableEq, Repr

/-- A field is, for this subsystem, just its key/value metadata
(`field.metadata(key)` is the only accessor used).  Named `FieldMeta` because
`Field` is taken by Mathlib. -/
def FieldMeta : Type := List (String × Value)

instance : DecidableEq FieldMeta := by unfold FieldMeta; infer_instance

/-- `CubeCoords`: an ordered mapping from dimension name to the list of
coordinate values (Python's insertion-ordered `dict` subclass in
`tensor.py`). -/
def CubeCoords : Type := List (String × List Value)

instance : DecidableEq CubeCoords := by unfold CubeCoords; infer_instance

/-- `tuple(len(v) for _, v in coords.items())` (`TensorCore._coords_shape`). -/
def coordsShape (c : CubeCoords) : List Nat := c.map (fun p => p.2.length)

/-- `tuple(v for _, v in dims.items())` (`TensorCore._dims_shape`). -/
def dimsShape (d : List (String × Nat)) : List Nat := d.map (fun p => p.2)

/-- Product of a shape tuple (`math.prod`). -/
def listProd (l : List Nat) : Nat := l.foldr (· * ·) 1

/-! ## Index translation (`tensor.py`, `coords_to_index` / `index_to_coords`)

`coords_to_index` walks the dimensions from last to first, accumulating
`index += coords[i] * n; n *= shape[i]`.  The fold below processes the zipped
(coordinate, size) pairs from the right with accumulator `(index, n)`,
which is exactly that loop. -/

def coords_to_index (coords shape : List Nat) : Nat :=
  ((List.zip coords shape).foldr
    (fun p acc => (acc.1 + p.1 * acc.2, acc.2 * p.2)) (0, 1)).1

/-- The loop of `index_to_coords`: positions are filled from last to first,
each taking `index % shape[i]` and dividing `index` by `shape[i]`.  The
helper returns the produced digits together with the remaining quotient. -/
def index_to_coords_aux : Nat → List Nat → List Nat × Nat
  | idx, [] => ([], idx)
  | idx, s :: rest =>
      let r := index_to_coords_aux idx rest
      ((r.2 % s) :: r.1, r.2 / s)

def index_to_coords (index : Nat) (shape : List Nat) : List Nat :=
  (index_to_coords_aux index shape).1

example : coords_to_index [1, 0, 2] [2, 1, 3] = 5 := by decide
example : index_to_coords 5 [2, 1, 3] = [1, 0, 2] := by decide

/-! ## The tensor (`tensor.py`, `FieldListTensor`) -/

/-- The state stored by `FieldListTensor.__init__`.  The derived attributes
(`_user_shape`, `_field_shape`, `_full_shape`, `_user_dims`) are recomputed by
the definitions below exactly as `__init__` computes them. -/
structure FieldListTensor where
  source : List FieldMeta
  user_coords : CubeCoords
  field_coords : CubeCoords
  field_dims : List (String × Nat)
  flatten_values : Bool
deriving DecidableEq

namespace FieldListTensor

/-- `self._user_shape = self._coords_shape(user_coords)` -/
def user_shape (t : FieldListTensor) : List Nat := coordsShape t.user_coords

/-- `self._user_dims = dict of k -> len(v)` -/
def user_dims (t : FieldListTensor) : List (String × Nat) :=
  t.user_coords.map (fun p => (p.1, p.2.length))

/-- `self._field_shape = self._dims_shape(field_dims)` -/
def field_shape (t : FieldListTensor) : List Nat := dimsShape t.field_dims

/-- `self._full_shape = self._user_shape + self._field_shape` -/
def full_shape (t : FieldListTensor) : List Nat := t.user_shape ++ t.field_shape

end FieldListTensor

/-- Modelled from the spec: `FieldListTensor.__init__` runs `CubeChecker.check`
from `earthkit.data.utils.xarray.check`, a module of this repository that is
not among the sources here.  Per the spec (hypercube consistency checker), it
verifies `len(source) == product(user_shape)` and raises a fatal `ValueError`
with a diagnostic on mismatch; it never repairs anything.  Only the
success/failure behaviour is modelled — the diagnostic text does not affect
control flow. -/
def cubeCheck (field_num : Nat) (user_shape : List Nat) : Except String Unit :=
  if field_num = listProd user_shape then .ok ()
  else .error "Input does not form a full hypercube"

/-- `FieldListTensor.__init__`: stores the state, computes the shapes and runs
the hypercube consistency check; a failed check propagates as an exception,
so construction yields `Except`. -/
def FieldListTensor.init (source : List FieldMeta) (user_coords : CubeCoords)
    (field_coords : CubeCoords) (field_dims : List (String × Nat))
    (flatten_values : Bool) : Except String FieldListTensor :=
  let t : FieldListTensor :=
    ⟨source, user_coords, field_coords, field_dims, flatten_values⟩
  (cubeCheck source.length t.user_shape).map (fun _ => t)

/-- `FieldListTensor.from_tensor(owner, source, user_coords)`: rebuilds a tensor
on an already-selected field subset, inheriting the owner's field-level
coordinates, dims and flattening policy. -/
def FieldListTensor.from_tensor (owner : FieldListTensor) (source : List FieldMeta)
    (user_coords : CubeCoords) : Except String FieldListTensor :=
  FieldListTensor.init source user_coords owner.field_coords owner.field_dims
    owner.flatten_values

/-! ## Selectors (`int` / `slice` / `list` / `Ellipsis`)

Python/`numpy` indexing as used by `_subset` and `_subset_coords`:
`np.array(list(range(c)))[s].tolist()` and Python-list indexing/slicing. -/

/-- A Python `slice(start, stop, step)` with optional components. -/
structure PySlice where
  start : Option Int
  stop : Option Int
  step : Option Int
deriving DecidableEq, Repr

/-- One per-dimension selector as accepted by `__getitem__` / `_subset`. -/
inductive Selector where
  | int (i : Int)
  | slice (sl : PySlice)
  | list (l : List Int)
  | ellipsis
deriving DecidableEq, Repr

/-- `slice(None, None, None)` — select everything. -/
def sliceAll : Selector := .slice ⟨none, none, none⟩

/-- Python integer indexing into a sequence of length `n`: negative indices
count from the end, anything out of range raises `IndexError`. -/
def pyIndex (i : Int) (n : Nat) : Except String Nat :=
  if 0 ≤ i ∧ i < (n : Int) then .ok i.toNat
  else if -(n : Int) ≤ i ∧ i < 0 then .ok (i + n).toNat
  else .error "IndexError: index out of range"

/-- The index list denoted by a Python `slice` over a sequence of length `n`
(the `slice.indices(n)` resolution rules: defaults, negative wrap-around,
clamping, positive or negative step; step 0 raises `ValueError`). -/
def pySliceIndices (sl : PySlice) (n : Nat) : Except String (List Int) :=
  let step := sl.step.getD 1
  if step = 0 then .error "ValueError: slice step cannot be zero"
  else if 0 < step then
    let lo : Int := 0
    let hi : Int := n
    let start := match sl.start with
      | none => lo
      | some s => if s < 0 then max (s + n) lo else min s hi
    let stop := match sl.stop with
      | none => hi
      | some s => if s < 0 then max (s + n) lo else min s hi
    let count : Nat := if stop ≤ start then 0 else ((stop - start - 1) / step).toNat + 1
    .ok ((List.range count).map (fun k => start + step * k))
  else
    let lo : Int := -1
    let hi : Int := (n : Int) - 1
    let start := match sl.start with
      | none => hi
      | some s => if s < 0 then max (s + n) lo else min s hi
    let stop := match sl.stop with
      | none => lo
      | some s => if s < 0 then max (s + n) lo else min s hi
    let count : Nat := if start ≤ stop then 0 else ((start - stop - 1) / (-step)).toNat + 1
    .ok ((List.range count).map (fun k => start + step * k))

/-- Python list slicing `lst[sl]` (same index rules as `numpy` 1-D slicing). -/
def pyListSlice {α : Type} [Inhabited α] (l : List α) (sl : PySlice) :
    Except String (List α) := do
  let idx ← pySliceIndices sl l.length
  pure (idx.map (fun i => l.getD i.toNat default))

/-- Python list indexing `lst[i]` with an `int`. -/
def pyListGet {α : Type} [Inhabited α] (l : List α) (i : Int) : Except String α := do
  let j ← pyIndex i l.length
  pure (l.getD j default)

/-- `np.array(list(range(c)))[s].tolist()` followed by the
`if not isinstance(lst, list): lst = [lst]` wrap in `_subset`:
an `int` selector yields a one-element list, a `slice` the sliced range, a
`list` fancy-indexes (negative indices wrap, out-of-range raises), and
`Ellipsis` keeps the whole range. -/
def selectOnRange (s : Selector) (c : Nat) : Except String (List Nat) :=
  match s with
  | .int i => do
      let j ← pyIndex i c
      pure [j]
  | .slice sl => do
      let idx ← pySliceIndices sl c
      pure (idx.map Int.toNat)
  | .list l => l.mapM (fun i => pyIndex i c)
  | .ellipsis => pure (List.range c)

/-- `itertools.product(*lists)` in its iteration order (rightmost varies
fastest). -/
def cartProduct {α : Type} : List (List α) → List (List α)
  | [] => [[]]
  | l :: rest => (l.map (fun x => (cartProduct rest).map (fun xs => x :: xs))).flatten

instance : Inhabited Value := ⟨.i 0⟩

/-- `TensorCore._subset_coords(indexes)`: builds the new coordinate mapping.
For each dimension position `i` with a selector: an `int` selector indexes the
coordinate list (the scalar is wrapped into a one-element list), a `slice`
selector slices it, a `list` selector evaluates `self.coords[k]` — an
attribute that does not exist on the class, so an `AttributeError` is raised —
and any other selector (`Ellipsis`) matches no `isinstance` branch, silently
skipping the key.  Dimensions beyond the selector list keep their full
coordinate list. -/
def FieldListTensor.subset_coords (t : FieldListTensor) (indexes : List Selector) :
    Except String CubeCoords := do
  let r ← t.user_coords.enum.mapM
    (fun (p : Nat × String × List Value) => do
      let i := p.1
      let k := p.2.1
      let vals := p.2.2
      if h : i < indexes.length then
        match indexes.get ⟨i, h⟩ with
        | .int j => do
            let v ← pyListGet vals j
            pure [(k, [v])]
        | .slice sl => do
            let v ← pyListSlice vals sl
            pure [(k, v)]
        | .list _ =>
            Except.error "AttributeError: FieldListTensor object has no attribute coords"
        | .ellipsis => pure []
      else
        pure [(k, vals)])
  pure r.flatten

/-- `FieldListTensor._subset(indexes)`: maps every selector to the list of
retained positions of its dimension, enumerates the cartesian product of those
position lists (in declared dimension order) through `coords_to_index` to get
the flat source indices, restricts the coordinates with `_subset_coords`, picks
the sub-field-list and rebuilds via `from_tensor`.  The `assert` statements of
the source become explicit error cases. -/
def FieldListTensor.subset (t : FieldListTensor) (indexes : List Selector) :
    Except String FieldListTensor := do
  if indexes.length < t.user_shape.length then
    .error "AssertionError: len(indexes) >= len(user_shape)"
  else do
    let pairs := List.zip indexes t.user_shape
    let user_coords ← pairs.mapM (fun p => selectOnRange p.1 p.2)
    let user_indexes := pairs.map Prod.fst
    if user_coords.length ≠ t.user_coords.length then
      .error "AssertionError: len(user_coords) == len(self.user_coords)"
    else do
      let dataset_indexes :=
        (cartProduct user_coords).map (fun x => coords_to_index x t.user_shape)
      let coords ← t.subset_coords user_indexes
      if coords.length ≠ t.user_coords.length then
        .error "AssertionError: len(coords) == len(self.user_coords)"
      else do
        let ds ← dataset_indexes.mapM (fun i =>
          if h : i < t.source.length then .ok (t.source.get ⟨i, h⟩)
          else .error "IndexError: field list index out of range")
        FieldListTensor.from_tensor t ds coords

/-- The argument forms accepted by `TensorCore.__getitem__`: a bare `int`, a
`list` of per-dimension selectors, or a `tuple` of per-dimension selectors. -/
inductive GetItemArg where
  | int (i : Int)
  | list (l : List Selector)
  | tuple (l : List Selector)
deriving DecidableEq, Repr

/-- `TensorCore.__getitem__(indexes)`: an `int` becomes a one-element tuple and
a `list` becomes a tuple; an empty tuple raises (`indexes[-1]` on an empty
sequence); a trailing `Ellipsis` is popped; the two `while` loops pad with
`slice(None, None, None)` up to one past the number of user dimensions and
then pop back down, i.e. missing trailing selectors become select-all and
excess trailing selectors are silently dropped. -/
def FieldListTensor.getitem (t : FieldListTensor) (arg : GetItemArg) :
    Except String FieldListTensor :=
  let indexes : List Selector := match arg with
    | .int i => [.int i]
    | .list l => l
    | .tuple l => l
  match indexes.getLast? with
  | none => .error "IndexError: tuple index out of range"
  | some last =>
    let indexes := if last = Selector.ellipsis then indexes.dropLast else indexes
    let n := t.user_shape.length
    let indexes := (indexes ++ List.replicate (n + 1 - indexes.length) sliceAll).take n
    t.subset indexes

/-- Modelled from the spec: `CubeSelection` builds on `Selection` and
`normalize_selection` from `earthkit.data.core.index`, which is not among the
sources here.  Per the spec, `sel` matching "finds all positions in that
dimension's coordinate sequence whose value equals the requested label
(supporting list-valued requests via membership test)". -/
inductive SelLabel where
  | one (v : Value)
  | many (vs : List Value)
deriving DecidableEq, Repr

/-- Modelled from the spec: whether one coordinate element matches a requested
label (equality for a scalar label, membership for a list label). -/
def selMatch : SelLabel → Value → Bool
  | .one v, e => e = v
  | .many vs, e => vs.contains e

/-- `self.user_coords[k]` — `dict` lookup by dimension name. -/
def lookupCoord (c : CubeCoords) (k : String) : Option (List Value) :=
  (c.find? (fun p => p.1 = k)).map Prod.snd

/-- `TensorCore.sel(**kwargs)`: per requested dimension, collect the positions
whose coordinate matches the label; a single match is collapsed to
`slice(v, v+1)`, otherwise the position list is kept; unrequested dimensions
get select-all; then delegate to `_subset`.  A requested name that is not a
dimension raises (`self.user_coords[k]` KeyError). -/
def FieldListTensor.sel (t : FieldListTensor) (kwargs : List (String × SelLabel)) :
    Except String FieldListTensor := do
  let r ← kwargs.mapM (fun (p : String × SelLabel) => do
    match lookupCoord t.user_coords p.1 with
    | none => Except.error "KeyError: dimension not in user_coords"
    | some vals =>
      let positions := (vals.enum.filter (fun q => selMatch p.2 q.2)).map Prod.fst
      match positions with
      | [v] => pure (p.1, Selector.slice ⟨some (v : Int), some ((v : Int) + 1), none⟩)
      | _ => pure (p.1, Selector.list (positions.map Int.ofNat)))
  let indexes := t.user_coords.map (fun p =>
    match (r.find? (fun q => q.1 = p.1)).map Prod.snd with
    | some s => s
    | none => sliceAll)
  t.subset indexes

/-- `TensorCore.isel(**kwargs)`: positional selection — the given selectors are
used directly, unrequested dimensions get select-all, then `_subset`. -/
def FieldListTensor.isel (t : FieldListTensor) (kwargs : List (String × Selector)) :
    Except String FieldListTensor :=
  let indexes := t.user_coords.map (fun p =>
    match (kwargs.find? (fun q => q.1 = p.1)).map Prod.snd with
    | some s => s
    | none => sliceAll)
  t.subset indexes

/-! ## `FieldListTensor.from_fieldlist` -/

/-- A total order on `Value` modelling Python `sorted` on a homogeneous value
list (integers by numeric order, strings lexicographically; the cross-kind
case, which would raise a `TypeError` in Python, is totalised arbitrarily). -/
def valueLE : Value → Value → Bool
  | .i a, .i b => a ≤ b
  | .s a, .s b => a ≤ b
  | .i _, .s _ => true
  | .s _, .i _ => false

/-- One positional argument of `from_fieldlist`: a metadata key name or a
dict (whose keys are collected); a single list/tuple argument is unwrapped
into this list beforehand, as in the source. -/
inductive FLArg where
  | str (s : String)
  | dict (keys : List String)
deriving DecidableEq, Repr

/-- `FieldListTensor.from_fieldlist`: asserts the field list is non-empty,
collects the requested dimension names from the arguments, sorts the source by
them (the `order_by` field-list collaborator, passed here as a function),
takes the user coordinates either as given or from the `unique_values`
collaborator (each value list sorted), takes the field dims/coords either as
given or from the `TensorGrid.build` collaborator applied to the first field,
and constructs the tensor (running the hypercube check).  `remapping` and
`progress_bar` only flow into the external collaborators and are omitted. -/
def FieldListTensor.from_fieldlist
    (order_by : List FieldMeta → List FieldMeta)
    (unique_values : List String → List (String × List Value))
    (grid_build : FieldMeta → Bool → List (String × Nat) × CubeCoords)
    (ds : List FieldMeta) (args : List FLArg)
    (flatten_values : Bool := false) (sort : Bool := true)
    (user_dims_and_coords : Option CubeCoords := none)
    (field_dims_and_coords : Option (List (String × Nat) × CubeCoords) := none) :
    Except String FieldListTensor :=
  if ds.length = 0 then .error "AssertionError: No data in ds"
  else
    let names := args.flatMap (fun a => match a with
      | .str s => [s]
      | .dict keys => keys)
    let source := if names ≠ [] ∧ sort then order_by ds else ds
    let user_coords : CubeCoords :=
      if names ≠ [] then
        match user_dims_and_coords with
        | some uc => uc
        | none => (unique_values names).map (fun p => (p.1, p.2.mergeSort valueLE))
      else []
    match field_dims_and_coords with
    | some fdc => FieldListTensor.init source user_coords fdc.2 fdc.1 flatten_values
    | none =>
      match source.head? with
      | some f0 =>
        let fdc := grid_build f0 flatten_values
        FieldListTensor.init source user_coords fdc.2 fdc.1 flatten_values
      | none => .error "IndexError: source is empty"

/-! ## Dimensions (`dim.py`) -/

def ENS_KEYS : List String := ["number", "perturbationNumber", "realization"]

def LEVEL_KEYS : List String := ["level", "levelist", "topLevel", "bottomLevel", "levels"]

def LEVEL_TYPE_KEYS : List String := ["typeOfLevel", "levtype"]

def DATE_KEYS : List String :=
  ["date", "andate", "validityDate", "dataDate", "hdate", "referenceDate", "indexingDate"]

def TIME_KEYS : List String :=
  ["time", "antime", "validityTime", "dataTime", "referenceTime", "indexingTime"]

def STEP_KEYS : List String := ["step", "endStep", "stepRange"]

def VALID_DATETIME_KEYS : List String := ["valid_time", "valid_datetime"]

def BASE_DATETIME_KEYS : List String :=
  ["forecast_reference_time", "base_time", "base_datetime", "reference_time",
   "reference_datetime", "indexing_time", "indexing_datetime"]

def DATETIME_KEYS : List String := BASE_DATETIME_KEYS ++ VALID_DATETIME_KEYS

/-- `get_keys(keys, drop=None)` -/
def get_keys (keys : List String) (drop : List String := []) : List String :=
  keys.filter (fun k => !drop.contains k)

/-- A `Dim` object: its identifying strings and the mutable `active` flag.
The `alias` attribute is called `aliasKeys` because `alias` is a Lean
keyword. -/
structure Dim where
  name : String
  key : String
  aliasKeys : List String
  drop : List String
  active : Bool
deriving DecidableEq, Repr

/-- The tail of `Dim.__init__`: the `alias` and `drop` lists are filtered so
that they never contain the dimension's own `name` or `key`. -/
def Dim.make (name key : String) (aliasKeys drop : List String)
    (active : Bool := true) : Dim :=
  { name := name
    key := key
    aliasKeys := aliasKeys.filter (fun k => !(k = name ∨ k = key))
    drop := drop.filter (fun k => !(k = name ∨ k = key))
    active := active }

/-- `Dim.__contains__`: `key in [self.name, self.key] or key in self.alias`. -/
def Dim.containsKey (d : Dim) (k : String) : Bool :=
  k = d.name ∨ k = d.key ∨ d.aliasKeys.contains k

/-- `class DateDim`: `name = "date"`, key defaults to the name,
`drop = get_keys(DATE_KEYS + DATETIME_KEYS, drop=name)`. -/
def DateDim (active : Bool := true) : Dim :=
  Dim.make "date" "date" [] (get_keys (DATE_KEYS ++ DATETIME_KEYS) ["date"]) active

/-- `class TimeDim`: `name = "time"`, `drop = get_keys(TIME_KEYS + DATETIME_KEYS, drop=name)`. -/
def TimeDim (active : Bool := true) : Dim :=
  Dim.make "time" "time" [] (get_keys (TIME_KEYS ++ DATETIME_KEYS) ["time"]) active

/-- `class StepDim`: `name = "step"`, `drop = get_keys(STEP_KEYS + VALID_DATETIME_KEYS, drop=name)`. -/
def StepDim (active : Bool := true) : Dim :=
  Dim.make "step" "step" [] (get_keys (STEP_KEYS ++ VALID_DATETIME_KEYS) ["step"]) active

/-- `class ValidTimeDim`: `name = "valid_time"`,
`drop = get_keys(DATE_KEYS + TIME_KEYS + DATETIME_KEYS, drop=name)`. -/
def ValidTimeDim (active : Bool := true) : Dim :=
  Dim.make "valid_time" "valid_time" []
    (get_keys (DATE_KEYS ++ TIME_KEYS ++ DATETIME_KEYS) ["valid_time"]) active

/-- `class NumberDim`: `alias = get_keys(ENS_KEYS)`; built by the builder as
`NumberDim(owner, key=ens_key)`, so the name defaults to the key. -/
def NumberDim (key : String) (active : Bool := true) : Dim :=
  Dim.make key key (get_keys ENS_KEYS) [] active

/-- `class LevelDim`: `alias = get_keys(LEVEL_KEYS)`; built by the level mode
as `LevelDim(owner, key=level_key)`, so the name defaults to the key. -/
def LevelDim (key : String) (active : Bool := true) : Dim :=
  Dim.make key key (get_keys LEVEL_KEYS) [] active

/-- `d.active = False` — the one mutation a `Dim` ever undergoes. -/
def deact (d : Dim) : Dim := { d with active := false }

/-- The loop of `Dims.deactivate(keys, ignore_dim)` in its default
`others=False, collect=False` form (the call pattern of
`Dim.deactivate_drop_list`): every dimension that is active, distinct from the
ignored one, and matching one of `keys` by name/key/alias is deactivated.
Each loop iteration mutates only the dimension it visits and its condition
reads only that dimension, so the loop is a pointwise pass, written here with
an explicit position counter.  The `Dims` mapping is modelled as an
association list (dict key, `Dim`), and object identity of `ignore_dim` is
modelled by its position. -/
def deactivatePlainFrom (keys : List String) (ignore : Option Nat) :
    Nat → List (String × Dim) → List (String × Dim)
  | _, [] => []
  | i, p :: rest =>
      (if p.2.active ∧ some i ≠ ignore ∧ keys.any (fun k => p.2.containsKey k)
        then (p.1, deact p.2) else p) :: deactivatePlainFrom keys ignore (i + 1) rest

/-- `Dims.deactivate(keys, ignore_dim=...)` with the default
`others=False, collect=False`. -/
def deactivatePlain (dims : List (String × Dim)) (keys : List String)
    (ignore : Option Nat) : List (String × Dim) :=
  deactivatePlainFrom keys ignore 0 dims

/-- One iteration of `Dims.deactivate(keys, others=True, collect=True)` (the
call pattern of the variable-key phase of `Dims.__init__`): a matching active
dimension is deactivated, its own drop list is then propagated
(`d.deactivate_drop_list()`), and its name is collected. -/
def deactivateFullStep (keys : List String)
    (st : List (String × Dim) × List String) (i : Nat) :
    List (String × Dim) × List String :=
  match st.1.get? i with
  | some p =>
    if p.2.active ∧ keys.any (fun k => p.2.containsKey k) then
      let dims1 := st.1.set i (p.1, deact p.2)
      let dims2 := deactivatePlain dims1 (p.2.name :: p.2.key :: p.2.drop) (some i)
      (dims2, st.2 ++ [p.2.name])
    else st
  | none => st

def deactivateFullAux (keys : List String) :
    Nat → Nat → List (String × Dim) × List String → List (String × Dim) × List String
  | 0, _, st => st
  | fuel + 1, i, st => deactivateFullAux keys fuel (i + 1) (deactivateFullStep keys st i)

/-- `Dims.deactivate(keys, ignore_dim=None, others=True, collect=True)`:
returns the updated dimensions and the collected names. -/
def deactivateFull (dims : List (String × Dim)) (keys : List String) :
    List (String × Dim) × List String :=
  deactivateFullAux keys dims.length 0 (dims, [])

/-- `Dim.check()` for dimension `i`: when it is active (the default
`condition()` is always true) it deactivates, via `deactivate_drop_list`,
every other dimension matching `[self.name, self.key] + self.drop`. -/
def checkStep (dims : List (String × Dim)) (i : Nat) : List (String × Dim) :=
  match dims.get? i with
  | some p =>
    if p.2.active then deactivatePlain dims (p.2.name :: p.2.key :: p.2.drop) (some i)
    else dims
  | none => dims

def runChecksAux : Nat → Nat → List (String × Dim) → List (String × Dim)
  | 0, _, dims => dims
  | fuel + 1, i, dims => runChecksAux fuel (i + 1) (checkStep dims i)

/-- The check loop of `Dims.__init__`: `for k, d in self.dims.items(): d.check()`. -/
def runChecks (dims : List (String × Dim)) : List (String × Dim) :=
  runChecksAux dims.length 0 dims

/-- `Dim.update(ds)` as in the source: inactive dimensions are skipped; an
active dimension containing the variable key raises; a key with zero distinct
values across the field list deactivates the dimension.  (The squeeze branch
present in earlier revisions is commented out in this source: a single
distinct value does NOT deactivate, and `squeeze`/`ensure_dims` are unused.)
The field list is modelled by its `ds.index(key)` accessor. -/
def Dim.update (variable_key : String) (dsIndex : String → List Value) (d : Dim) :
    Except String Dim :=
  if d.active = false then .ok d
  else if d.containsKey variable_key then
    .error ("Variable key " ++ variable_key ++ " cannot be in dimension=" ++ d.name)
  else if (dsIndex d.key).length = 0 then .ok (deact d)
  else .ok d

/-- `Dims.update(ds)`: update every dimension, then retain the active ones. -/
def Dims.update (variable_key : String) (dsIndex : String → List Value)
    (dims : List (String × Dim)) : Except String (List (String × Dim)) := do
  let r ← dims.mapM (fun p => (Dim.update variable_key dsIndex p.2).map (fun d => (p.1, d)))
  pure (r.filter (fun p => p.2.active))

/-- `Dims.var_dim_found_error_message(keys)`. -/
def var_dim_found_error_message (variable_key : String) (keys : List String) : String :=
  "Variable-related keys \"" ++ String.intercalate ", " keys ++
    "\"\" cannot be dimensions. Such a key must be specified as the variable_key. " ++
    "The variable_key can only be set to a single key, its current value is \"" ++
    variable_key ++ "\""

/-- The early collision check of `Dims._init_dims`: any requested dimension
key equal to the variable key is fatal. -/
def initialVarKeyCheck (dim_keys : List String) (variable_key : String) :
    Except String Unit :=
  let invalid_var_keys := dim_keys.filter (fun k => [variable_key].contains k)
  if invalid_var_keys ≠ [] then
    .error (var_dim_found_error_message variable_key invalid_var_keys)
  else .ok ()

/-- The final filtering of `Dims.__init__`: keep the active dimensions whose
dict key is not a core dimension, then append the active core dimensions in
`core_dim_order`. -/
def finalActiveDims (core_dim_order : List String) (dims : List (String × Dim)) :
    List (String × Dim) :=
  let part1 := dims.filter (fun p => p.2.active ∧ !core_dim_order.contains p.1)
  let part2 := core_dim_order.filterMap (fun k =>
    if (part1.map Prod.fst).contains k then none
    else match dims.find? (fun p => p.1 = k) with
      | some p => if p.2.active then some p else none
      | none => none)
  part1 ++ part2

/-- The consistency phase of `Dims.__init__` (non-fixed path, after the
candidate dimensions are materialised): the variable-key dimension is
prepended under the reserved key, every dimension is checked (conflict
propagation), dimensions related to the variable key are deactivated with
their names collected, a fatal error is raised if any collected name other
than the variable key itself remains, and only active dimensions are kept,
core dimensions ordered last. -/
def Dims.initCheckPhase (variable_key : String) (var_key_dim : Dim)
    (dims : List (String × Dim)) (core_dim_order : List String) :
    Except String (List (String × Dim)) :=
  let all := ("__var_key_dim__", var_key_dim) :: dims
  let checked := runChecks all
  let dc := deactivateFull checked ["__var_key_dim__", variable_key]
  let var_dims := dc.2
  if var_dims ≠ [] then
    let var_dims2 := if var_dims.contains variable_key
      then var_dims.erase variable_key else var_dims
    if var_dims2 ≠ [] then .error (var_dim_found_error_message variable_key var_dims2)
    else .ok (finalActiveDims core_dim_order dc.1)
  else .ok (finalActiveDims core_dim_order dc.1)

/-! ## Step decoding (`dates.py`) and coordinate classification (`coord.py`) -/

/-- `ECC_SECONDS_FACTORS = dict s -> 1, m -> 60, h -> 3600` keyed by the
single-character unit suffix. -/
def ECC_SECONDS_FACTORS : List (Char × Int) := [('s', 1), ('m', 60), ('h', 3600)]

/-- A raw step value as it reaches `step_to_delta`: a Python `int`, `str`, or
an already-parsed `datetime.timedelta` (modelled by its total seconds). -/
inductive StepVal where
  | int (n : Int)
  | str (s : String)
  | delta (seconds : Int)
deriving DecidableEq, Repr

/-- `re.fullmatch(NUM_STEP_PATTERN, step)` for the pattern `\d+`. -/
def isNumStep (s : String) : Bool :=
  s.length > 0 && s.data.all Char.isDigit

/-- `re.fullmatch(SUFFIX_STEP_PATTERN, step)` for the pattern
`\d+[a-zA-Z]` — at least one digit followed by exactly one ASCII letter
(`Char.isAlpha` is exactly `[a-zA-Z]`). -/
def isSuffixStep (s : String) : Bool :=
  match s.data.getLast? with
  | some c => s.length ≥ 2 && s.data.dropLast.all Char.isDigit && c.isAlpha
  | none => false

/-- `int(...)` on a digit string. -/
def digitsToNat (l : List Char) : Nat :=
  l.foldl (fun acc c => acc * 10 + (c.toNat - 48)) 0

/-- `step_to_delta(step)`: a bare integer is hours; a digits-only string is
hours (converted via seconds); a digits-plus-single-letter string uses the
seconds-per-unit factor of the letter, raising on an unknown letter; a
timedelta passes through; anything else raises.  The resulting
`datetime.timedelta` is modelled by its total seconds. -/
def step_to_delta : StepVal → Except String Int
  | .int n => .ok (n * 3600)
  | .str s =>
      if isNumStep s then .ok ((digitsToNat s.data : Int) * 3600)
      else if isSuffixStep s then
        match (ECC_SECONDS_FACTORS.find?
            (fun p => p.1 = (s.data.getLast?.getD ' '))).map Prod.snd with
        | none => .error ("Unsupported ecCodes step units in step: " ++ s)
        | some factor => .ok ((digitsToNat s.data.dropLast : Int) * factor)
      else .error ("Unsupported ecCodes step: " ++ s)
  | .delta d => .ok d

/-- The two possible results of `StepCoord.convert`: decoded durations (when
the profile decodes time) or the untouched raw values. -/
inductive StepConvertResult where
  | decoded (deltas : List Int)
  | raw (vals : List StepVal)
deriving DecidableEq, Repr

/-- `StepCoord.convert(profile)`: with `decode_time` set, maps
`step_to_delta` over the values (the first failure propagates); otherwise the
base-class `convert` returns the values unchanged. -/
def StepCoord_convert (decode_time : Bool) (vals : List StepVal) :
    Except String StepConvertResult :=
  if decode_time then (vals.mapM step_to_delta).map .decoded
  else .ok (.raw vals)

/-- The `Coord` subtype chosen by `Coord.make`. -/
inductive CoordKind where
  | datetime
  | time
  | step
  | level
  | generic
deriving DecidableEq, Repr

/-- The dispatch of `Coord.make(name, ...)`.  Note: in the source the first
name list is written with `"base_datetime" "reference_time"` — two adjacent
string literals with no comma, which Python concatenates — so the actual
member of the list is the single string `"base_datetimereference_time"`,
and neither `"base_datetime"` nor `"reference_time"` is in the list. -/
def Coord_make (name : String) : CoordKind :=
  if ["forecast_reference_time", "date", "hdate", "andate", "valid_time",
      "valid_datetime", "base_datetimereference_time", "indexing_time"].contains name
  then .datetime
  else if ["time", "antime"].contains name then .time
  else if ["step"].contains name then .step
  else if ["level", "levelist"].contains name then .level
  else .generic

/-! ## Theorems -/

theorem coords_to_index_snd (cs ss : List Nat) (h : cs.length = ss.length) :
    ((List.zip cs ss).foldr
      (fun p acc => (acc.1 + p.1 * acc.2, acc.2 * p.2)) ((0 : Nat), (1 : Nat))).2
      = listProd ss := by
  induction cs generalizing ss with
  | nil => cases ss with
    | nil => simp [listProd]
    | cons s ss => simp at h
  | cons c cs ih => cases ss with
    | nil => simp at h
    | cons s ss =>
      simp only [List.length_cons, Nat.add_right_cancel_iff] at h
      have ih2 := ih ss h
      simp only [listProd] at ih2 ⊢
      simp only [List.zip_cons_cons, List.foldr_cons]
      rw [ih2]
      ring

theorem coords_to_index_cons (c s : Nat) (cs ss : List Nat) (h : cs.length = ss.length) :
    coords_to_index (c :: cs) (s :: ss) = coords_to_index cs ss + c * listProd ss := by
  simp only [coords_to_index, List.zip_cons_cons, List.foldr_cons]
  rw [← coords_to_index_snd cs ss h]

theorem index_to_coords_aux_roundtrip (cs ss : List Nat)
    (h : List.Forall₂ (· < ·) cs ss) (q : Nat) :
    index_to_coords_aux (coords_to_index cs ss + q * listProd ss) ss = (cs, q) := by
  induction h generalizing q with
  | nil => simp [coords_to_index, index_to_coords_aux, listProd]
  | cons hlt htail ih =>
    rename_i c s cs ss
    have hlen : cs.length = ss.length := htail.length_eq
    rw [coords_to_index_cons c s cs ss hlen]
    have hprod : listProd (s :: ss) = s * listProd ss := by
      simp [listProd]
    rw [hprod]
    have harith : coords_to_index cs ss + c * listProd ss + q * (s * listProd ss)
        = coords_to_index cs ss + (c + q * s) * listProd ss := by ring
    rw [harith]
    simp only [index_to_coords_aux]
    rw [ih (c + q * s)]
    have hs : 0 < s := Nat.lt_of_le_of_lt (Nat.zero_le c) hlt
    have h1 : (c + q * s) % s = c := by
      rw [Nat.add_mul_mod_self_right, Nat.mod_eq_of_lt hlt]
    have h2 : (c + q * s) / s = q := by
      rw [Nat.add_mul_div_right c q hs, Nat.div_eq_of_lt hlt]
      simp
    simp [h1, h2]

/-- C2: for every shape of 1 to 4 dimensions with positive sizes and every
coordinate tuple that is componentwise within that shape,
`index_to_coords (coords_to_index c shape) shape = c` — the mixed-radix
decomposition (last dimension varying fastest) and recomposition are mutually
inverse. -/
theorem index_round_trip (coords shape : List Nat)
    (hdims : 1 ≤ shape.length) (hdims4 : shape.length ≤ 4)
    (hpos : ∀ s ∈ shape, 0 < s)
    (hin : List.Forall₂ (· < ·) coords shape) :
    index_to_coords (coords_to_index coords shape) shape = coords := by
  have h := index_to_coords_aux_roundtrip coords shape hin 0
  simp only [Nat.zero_mul, Nat.add_zero] at h
  simp [index_to_coords, h]

/-- Witness for C2 at the concrete shape `[2, 1, 3]` (a size-1 dimension
included) and coordinates `[1, 0, 2]`. -/
theorem index_round_trip_witness :
    (1 ≤ ([2, 1, 3] : List Nat).length ∧ ([2, 1, 3] : List Nat).length ≤ 4 ∧
      (∀ s ∈ ([2, 1, 3] : List Nat), 0 < s) ∧
      List.Forall₂ (· < ·) [1, 0, 2] [2, 1, 3]) ∧
    index_to_coords (coords_to_index [1, 0, 2] [2, 1, 3]) [2, 1, 3] = [1, 0, 2] :=
  ⟨⟨by decide, by decide, by decide, by decide⟩,
    index_round_trip [1, 0, 2] [2, 1, 3] (by decide) (by decide) (by decide) (by decide)⟩

/-- C5: step decoding maps the bare integer 6 to a 6-hour duration (21600 s),
the string "6" to 6 hours, "6h" to 6 hours, "90m" to 90 minutes (5400 s), and
raises a fatal error on an unrecognized form such as "abc"; the same holds
through `StepCoord.convert` with time decoding enabled. -/
theorem step_decoding :
    step_to_delta (.int 6) = .ok 21600 ∧
    step_to_delta (.str "6") = .ok 21600 ∧
    step_to_delta (.str "6h") = .ok 21600 ∧
    step_to_delta (.str "90m") = .ok 5400 ∧
    (∃ msg, step_to_delta (.str "abc") = .error msg) ∧
    StepCoord_convert true [.int 6, .str "6", .str "6h", .str "90m"]
      = .ok (.decoded [21600, 21600, 21600, 5400]) ∧
    (∃ msg, StepCoord_convert true [.str "abc"] = .error msg) :=
  ⟨rfl, rfl, rfl, rfl, ⟨_, rfl⟩, rfl, ⟨_, rfl⟩⟩

/-- C9: the `Coord.make` classification table evaluated on the names the claim
lists.  Because the source writes `"base_datetime" "reference_time"` without a
comma (Python concatenates the two literals), neither "base_datetime" nor
"reference_time" is in the date/time name list: both dispatch to the generic
coordinate class, contradicting the claim; the remaining names dispatch as
claimed. -/
theorem coord_make_dispatch :
    Coord_make "base_datetime" = .generic ∧
    Coord_make "reference_time" = .generic ∧
    Coord_make "forecast_reference_time" = .datetime ∧
    Coord_make "date" = .datetime ∧
    Coord_make "valid_time" = .datetime ∧
    Coord_make "valid_datetime" = .datetime ∧
    Coord_make "step" = .step ∧
    Coord_make "level" = .level ∧
    Coord_make "levelist" = .level ∧
    Coord_make "pressure" = .generic :=
  ⟨rfl, rfl, rfl, rfl, rfl, rfl, rfl, rfl, rfl, rfl⟩

/-- A field list, seen through its `ds.index(key)` accessor, in which both the
"date" and the "valid_time" keys are present (non-empty distinct values). -/
def dsDateValid : String → List Value := fun k =>
  if k = "date" then [.s "20210101", .s "20210102"]
  else if k = "valid_time" then [.s "2021-01-01T12:00:00", .s "2021-01-02T12:00:00"]
  else []

/-- C3: with both "date" and "valid_time" nominally available, the check pass
leaves whichever dimension is declared first active and deactivates the other
through its drop list, and the subsequent metadata update keeps that outcome:
declaration order determines the winner. -/
theorem date_valid_time_mutual_exclusion :
    ((runChecks [("date", DateDim), ("valid_time", ValidTimeDim)]).map
        (fun p => (p.1, p.2.active)) = [("date", true), ("valid_time", false)]) ∧
    ((runChecks [("valid_time", ValidTimeDim), ("date", DateDim)]).map
        (fun p => (p.1, p.2.active)) = [("valid_time", true), ("date", false)]) ∧
    ((Dims.update "param" dsDateValid
        (runChecks [("date", DateDim), ("valid_time", ValidTimeDim)])).map
        (fun l => l.map Prod.fst) = .ok ["date"]) ∧
    ((Dims.update "param" dsDateValid
        (runChecks [("valid_time", ValidTimeDim), ("date", DateDim)])).map
        (fun l => l.map Prod.fst) = .ok ["valid_time"]) :=
  ⟨rfl, rfl, rfl, rfl⟩

/-- A field list accessor in which "step" has exactly one distinct value and
"levelist" has two; every other key is absent. -/
def dsSingleStep : String → List Value := fun k =>
  if k = "step" then [.i 0]
  else if k = "levelist" then [.i 850, .i 1000]
  else []

/-- C4: evaluation of `Dim.update` at the failing input.  The squeeze branch
is commented out in this source, and `Dims.update` passes no squeeze or
ensure information at all: a dimension whose key has exactly one distinct
value stays active (first two conjuncts), contradicting the claimed squeeze
behaviour, while a key with zero distinct values is still silently
deactivated (third conjunct) and the whole-collection update drops only the
zero-valued dimension (fourth conjunct). -/
theorem dim_update_ignores_squeeze :
    Dim.update "param" dsSingleStep StepDim = .ok StepDim ∧
    StepDim.active = true ∧
    Dim.update "param" dsSingleStep ValidTimeDim = .ok (deact ValidTimeDim) ∧
    (Dims.update "param" dsSingleStep
        [("step", StepDim), ("valid_time", ValidTimeDim), ("levelist", LevelDim "levelist")]).map
        (fun l => l.map Prod.fst) = .ok ["step", "levelist"] :=
  ⟨rfl, rfl, rfl, rfl⟩

/-- C1: the hypercube law for tensor construction (`FieldListTensor.__init__`,
the shared path of `from_fieldlist` and of `from_tensor` after a selection):
when the distinct-value counts of the chosen dimension keys multiply to
exactly the length of the field list, construction succeeds, the source
length equals the product of `user_shape`, and `full_shape` is `user_shape`
concatenated with `field_shape`; otherwise construction raises a fatal
error. -/
theorem hypercube_law (source : List FieldMeta) (user_coords field_coords : CubeCoords)
    (field_dims : List (String × Nat)) (fv : Bool) :
    (source.length = listProd (coordsShape user_coords) →
      ∃ t, FieldListTensor.init source user_coords field_coords field_dims fv = .ok t ∧
        source.length = listProd t.user_shape ∧
        t.full_shape = t.user_shape ++ t.field_shape) ∧
    (source.length ≠ listProd (coordsShape user_coords) →
      ∃ msg, FieldListTensor.init source user_coords field_coords field_dims fv
        = .error msg) := by
  constructor
  · intro h
    refine ⟨⟨source, user_coords, field_coords, field_dims, fv⟩, ?_, h, rfl⟩
    simp [FieldListTensor.init, cubeCheck, FieldListTensor.user_shape, h, Except.map]
  · intro h
    refine ⟨"Input does not form a full hypercube", ?_⟩
    simp [FieldListTensor.init, cubeCheck, FieldListTensor.user_shape, h, Except.map]

/-- Witness for C1: a 2-field list over a single 2-valued dimension builds
(and satisfies the shape law), while a 3-field list over the same dimension
raises. -/
theorem hypercube_law_witness :
    ((([[("p", Value.s "t")], [("p", Value.s "r")]] : List FieldMeta).length
        = listProd (coordsShape [("level", [Value.i 850, Value.i 1000])])) ∧
      (∃ t, FieldListTensor.init [[("p", Value.s "t")], [("p", Value.s "r")]]
          [("level", [Value.i 850, Value.i 1000])] [] [] false = .ok t ∧
        ([[("p", Value.s "t")], [("p", Value.s "r")]] : List FieldMeta).length
          = listProd t.user_shape ∧
        t.full_shape = t.user_shape ++ t.field_shape)) ∧
    ((([[("p", Value.s "t")], [("p", Value.s "r")], [("p", Value.s "q")]] :
        List FieldMeta).length
        ≠ listProd (coordsShape [("level", [Value.i 850, Value.i 1000])])) ∧
      (∃ msg, FieldListTensor.init
          [[("p", Value.s "t")], [("p", Value.s "r")], [("p", Value.s "q")]]
          [("level", [Value.i 850, Value.i 1000])] [] [] false = .error msg)) :=
  ⟨⟨by decide, (hypercube_law _ _ _ _ _).1 (by decide)⟩,
   ⟨by decide, (hypercube_law _ _ _ _ _).2 (by decide)⟩⟩

/-- C10: `from_fieldlist` requires a non-empty field list: on an empty list it
fails with the assertion error and never returns a tensor, and whenever it
does return a tensor the input field list was non-empty. -/
theorem from_fieldlist_nonempty
    (order_by : List FieldMeta → List FieldMeta)
    (unique_values : List String → List (String × List Value))
    (grid_build : FieldMeta → Bool → List (String × Nat) × CubeCoords)
    (ds : List FieldMeta) (args : List FLArg) (fv sort : Bool)
    (udc : Option CubeCoords) (fdc : Option (List (String × Nat) × CubeCoords)) :
    (ds = [] →
      FieldListTensor.from_fieldlist order_by unique_values grid_build ds args fv sort udc fdc
        = .error "AssertionError: No data in ds") ∧
    (∀ t, FieldListTensor.from_fieldlist order_by unique_values grid_build ds args fv sort
        udc fdc = .ok t → 0 < ds.length) := by
  constructor
  · intro h
    subst h
    simp [FieldListTensor.from_fieldlist]
  · intro t h
    cases ds with
    | nil => simp [FieldListTensor.from_fieldlist] at h
    | cons f fs => simp

/-- Witness for C10: the empty field list fails, and a successful one-field
construction implies positivity of the length. -/
theorem from_fieldlist_nonempty_witness :
    (FieldListTensor.from_fieldlist id (fun _ => []) (fun _ _ => ([], []))
        [] [] false true none (some ([], []))
      = .error "AssertionError: No data in ds") ∧
    (∀ t, FieldListTensor.from_fieldlist id (fun _ => []) (fun _ _ => ([], []))
        [[("p", Value.s "t")]] [] false true none (some ([], [])) = .ok t →
      0 < ([[("p", Value.s "t")]] : List FieldMeta).length) :=
  ⟨(from_fieldlist_nonempty id (fun _ => []) (fun _ _ => ([], []))
      [] [] false true none (some ([], []))).1 rfl,
   (from_fieldlist_nonempty id (fun _ => []) (fun _ _ => ([], []))
      [[("p", Value.s "t")]] [] false true none (some ([], []))).2⟩

/-- C6: for a tensor built over levels `[850, 1000]` (any two fields),
`sel(level=850)` and `isel(level=0)` produce the same tensor: identical
`user_coords` (the single level 850) and the same underlying field
selection (the first field). -/
theorem sel_isel_equivalence (f0 f1 : FieldMeta) :
    ((FieldListTensor.init [f0, f1] [("level", [.i 850, .i 1000])] [] [] false).bind
        (fun t => t.sel [("level", .one (.i 850))]))
      = ((FieldListTensor.init [f0, f1] [("level", [.i 850, .i 1000])] [] [] false).bind
        (fun t => t.isel [("level", .int 0)])) ∧
    ((FieldListTensor.init [f0, f1] [("level", [.i 850, .i 1000])] [] [] false).bind
        (fun t => t.sel [("level", .one (.i 850))]))
      = .ok ⟨[f0], [("level", [.i 850])], [], [], false⟩ :=
  ⟨rfl, rfl⟩

/-- A concrete 2-field tensor over the single user dimension "level" with
coordinate values 850 and 1000, used to evaluate `__getitem__`. -/
def tLev : FieldListTensor :=
  ⟨[[("param", .s "t")], [("param", .s "r")]], [("level", [.i 850, .i 1000])], [], [], false⟩

/-- C7: evaluation of `__getitem__` at the failing input.  The normalization
behaves as claimed — a bare int is wrapped, a trailing `Ellipsis` is dropped,
missing trailing selectors are padded with select-all and excess trailing
selectors are truncated (first three conjuncts, each shown by the resulting
coordinates), and an int selector restricts the coordinate sequence — but a
per-dimension `list` selector, which the claim says is accepted, raises an
`AttributeError` because `_subset_coords` reads the nonexistent
`self.coords` attribute (last conjunct). -/
theorem getitem_list_selector_attribute_error :
    (FieldListTensor.getitem tLev (.int 0)).map (·.user_coords)
      = .ok [("level", [.i 850])] ∧
    (FieldListTensor.getitem tLev (.tuple [.int 0, .ellipsis]))
      = (FieldListTensor.getitem tLev (.int 0)) ∧
    (FieldListTensor.getitem tLev
        (.tuple [.int 0, .int 0, .int 0])) = (FieldListTensor.getitem tLev (.int 0)) ∧
    (FieldListTensor.getitem tLev (.tuple [.list [0]]))
      = .error "AttributeError: FieldListTensor object has no attribute coords" :=
  ⟨rfl, rfl, rfl, rfl⟩

/-- `class OtherDim(Dim): pass` as produced by `make_dim` for a plain name:
name and key coincide, no alias, no drop list. -/
def OtherDim (name : String) (active : Bool := true) : Dim :=
  Dim.make name name [] [] active

/-- The only evolution a `Dim` undergoes during the consistency phase of
`Dims.__init__`: it is either left alone or deactivated. -/
def DimStep (a b : Dim) : Prop := b = a ∨ b = deact a

/-- An association-list entry keeps its dict key while its dimension steps. -/
def PairStep (p q : String × Dim) : Prop := q.1 = p.1 ∧ DimStep p.2 q.2

theorem dimStep_trans {a b c : Dim} (h1 : DimStep a b) (h2 : DimStep b c) :
    DimStep a c := by
  rcases h1 with rfl | rfl
  · exact h2
  · rcases h2 with rfl | rfl
    · exact Or.inr rfl
    · exact Or.inr (by simp [deact])

theorem dimStep_containsKey {a b : Dim} (h : DimStep a b) (k : String) :
    b.containsKey k = a.containsKey k := by
  rcases h with rfl | rfl
  · rfl
  · simp [Dim.containsKey, deact]

theorem dimStep_active {a b : Dim} (h : DimStep a b) (hb : b.active = true) :
    a.active = true := by
  rcases h with rfl | rfl
  · exact hb
  · simp [deact] at hb

theorem listStep_refl (l : List (String × Dim)) : List.Forall₂ PairStep l l :=
  List.forall₂_same.mpr (fun p _ => ⟨rfl, Or.inl rfl⟩)

theorem listStep_trans {l1 l2 l3 : List (String × Dim)}
    (h1 : List.Forall₂ PairStep l1 l2) (h2 : List.Forall₂ PairStep l2 l3) :
    List.Forall₂ PairStep l1 l3 := by
  induction h1 generalizing l3 with
  | nil =>
    cases h2
    exact List.Forall₂.nil
  | cons hp ht ih =>
    cases h2 with
    | cons hq ht2 =>
      exact List.Forall₂.cons ⟨hq.1.trans hp.1, dimStep_trans hp.2 hq.2⟩ (ih ht2)

theorem listStep_deactivatePlainFrom (keys : List String) (ignore : Option Nat)
    (i : Nat) (l : List (String × Dim)) :
    List.Forall₂ PairStep l (deactivatePlainFrom keys ignore i l) := by
  induction l generalizing i with
  | nil => exact List.Forall₂.nil
  | cons p rest ih =>
    simp only [deactivatePlainFrom]
    split
    · exact List.Forall₂.cons ⟨rfl, Or.inr rfl⟩ (ih (i + 1))
    · exact List.Forall₂.cons ⟨rfl, Or.inl rfl⟩ (ih (i + 1))

theorem listStep_set_deact (l : List (String × Dim)) (i : Nat) (p : String × Dim)
    (h : l.get? i = some p) :
    List.Forall₂ PairStep l (l.set i (p.1, deact p.2)) := by
  induction l generalizing i with
  | nil => simp at h
  | cons q rest ih =>
    cases i with
    | zero =>
      simp only [List.get?] at h
      cases h
      exact List.Forall₂.cons ⟨rfl, Or.inr rfl⟩ (listStep_refl rest)
    | succ n =>
      simp only [List.get?] at h
      simp only [List.set]
      exact List.Forall₂.cons ⟨rfl, Or.inl rfl⟩ (ih n h)

theorem listStep_checkStep (dims : List (String × Dim)) (i : Nat) :
    List.Forall₂ PairStep dims (checkStep dims i) := by
  unfold checkStep
  cases hg : dims.get? i with
  | none => exact listStep_refl dims
  | some p =>
    dsimp only
    by_cases ha : p.2.active = true
    · rw [if_pos ha]
      exact listStep_deactivatePlainFrom _ _ _ _
    · rw [if_neg ha]
      exact listStep_refl dims

theorem listStep_runChecksAux (fuel : Nat) :
    ∀ (i : Nat) (l : List (String × Dim)),
      List.Forall₂ PairStep l (runChecksAux fuel i l) := by
  induction fuel with
  | zero => exact fun i l => listStep_refl l
  | succ n ih =>
    intro i l
    exact listStep_trans (listStep_checkStep l i) (ih (i + 1) (checkStep l i))

theorem listStep_deactivateFullStep (keys : List String)
    (st : List (String × Dim) × List String) (i : Nat) :
    List.Forall₂ PairStep st.1 ((deactivateFullStep keys st i).1) := by
  unfold deactivateFullStep
  cases hg : st.1.get? i with
  | none => exact listStep_refl st.1
  | some p =>
    dsimp only
    by_cases hc : (p.2.active = true ∧ (keys.any fun k => p.2.containsKey k) = true)
    · rw [if_pos hc]
      show List.Forall₂ PairStep st.1
        (deactivatePlain (st.1.set i (p.1, deact p.2))
          (p.2.name :: p.2.key :: p.2.drop) (some i))
      exact listStep_trans (listStep_set_deact st.1 i p hg)
        (listStep_deactivatePlainFrom _ _ _ _)
    · rw [if_neg hc]
      exact listStep_refl st.1

/-- The dimensions related to `vk` are all inactive — preserved whenever the
collection evolves by one-way deactivation. -/
theorem pvk_preserved {vk : String} {l l' : List (String × Dim)}
    (hs : List.Forall₂ PairStep l l')
    (hP : ∀ p ∈ l, p.2.containsKey vk = true → p.2.active = false) :
    ∀ p ∈ l', p.2.containsKey vk = true → p.2.active = false := by
  induction hs with
  | nil => simp
  | cons hpq ht ih =>
    rename_i a b as bs
    intro q hq hcont
    rcases List.mem_cons.mp hq with rfl | hq
    · have hconta : a.2.containsKey vk = true := by
        rw [← dimStep_containsKey hpq.2 vk]
        exact hcont
      have hina : a.2.active = false := hP a (List.mem_cons_self a as) hconta
      rcases hpq.2 with hd | hd
      · rw [hd]
        exact hina
      · rw [hd]
        simp [deact]
    · exact ih (fun p hp => hP p (List.mem_cons_of_mem a hp)) q hq hcont

/-- A pass of the deactivation loop over positions `≥ 1`, ignoring position 0,
with `vk` among the keys, leaves no active dimension related to `vk`. -/
theorem deactivatePlainFrom_kills {vk : String} {keys : List String}
    (hvk : vk ∈ keys) (l : List (String × Dim)) (i : Nat) (hi : 1 ≤ i) :
    ∀ p ∈ deactivatePlainFrom keys (some 0) i l,
      p.2.containsKey vk = true → p.2.active = false := by
  induction l generalizing i with
  | nil => simp [deactivatePlainFrom]
  | cons q rest ih =>
    intro p hp hcont
    simp only [deactivatePlainFrom] at hp
    rcases List.mem_cons.mp hp with rfl | hp
    · by_cases hc : (q.2.active = true ∧ some i ≠ some 0 ∧
          (keys.any fun k => q.2.containsKey k) = true)
      · rw [if_pos hc] at hcont ⊢
        simp [deact]
      · rw [if_neg hc] at hcont ⊢
        have hne : some i ≠ some 0 := by
          intro he
          injection he with he
          omega
        have hany : (keys.any fun k => q.2.containsKey k) = true :=
          List.any_eq_true.mpr ⟨vk, hvk, hcont⟩
        cases hb : q.2.active with
        | false => rfl
        | true => exact absurd ⟨hb, hne, hany⟩ hc
    · exact ih (i + 1) (by omega) p hp hcont

/-- The tail property (inactivity of every `vk`-related dimension other than
the head entry) is preserved by one-way evolution. -/
theorem qtail_preserved {vk : String} {l l' : List (String × Dim)}
    (hs : List.Forall₂ PairStep l l')
    (hQ : ∀ p ∈ l.drop 1, p.2.containsKey vk = true → p.2.active = false) :
    ∀ p ∈ l'.drop 1, p.2.containsKey vk = true → p.2.active = false := by
  cases hs with
  | nil => simp
  | cons hpq ht =>
    simpa using pvk_preserved ht (by simpa using hQ)

theorem qtail_runChecksAux {vk : String} (fuel : Nat) :
    ∀ (i : Nat) (l : List (String × Dim)),
      (∀ p ∈ l.drop 1, p.2.containsKey vk = true → p.2.active = false) →
      ∀ p ∈ (runChecksAux fuel i l).drop 1,
        p.2.containsKey vk = true → p.2.active = false := by
  induction fuel with
  | zero => exact fun i l hQ => hQ
  | succ n ih =>
    intro i l hQ
    exact ih (i + 1) (checkStep l i) (qtail_preserved (listStep_checkStep l i) hQ)

theorem pvk_deactivateFullAux {vk : String} (keys : List String) (fuel : Nat) :
    ∀ (i : Nat) (st : List (String × Dim) × List String),
      (∀ p ∈ st.1, p.2.containsKey vk = true → p.2.active = false) →
      ∀ p ∈ (deactivateFullAux keys fuel i st).1,
        p.2.containsKey vk = true → p.2.active = false := by
  induction fuel with
  | zero => exact fun i st hP => hP
  | succ n ih =>
    intro i st hP
    exact ih (i + 1) (deactivateFullStep keys st i)
      (pvk_preserved (listStep_deactivateFullStep keys st i) hP)

/-- Membership in the final dimension set of `Dims.__init__` implies
membership in the post-deactivation set and activity. -/
theorem finalActiveDims_mem (core : List String) (l : List (String × Dim))
    (p : String × Dim) (hp : p ∈ finalActiveDims core l) :
    p ∈ l ∧ p.2.active = true := by
  unfold finalActiveDims at hp
  rcases List.mem_append.mp hp with h | h
  · have h2 := List.mem_filter.mp h
    refine ⟨h2.1, ?_⟩
    have := h2.2
    simp only [Bool.and_eq_true, decide_eq_true_eq] at this
    exact this.1
  · obtain ⟨k, hk, hsome⟩ := List.mem_filterMap.mp h
    split at hsome
    · exact absurd hsome (by simp)
    · cases hfind : l.find? (fun q => q.1 = k) with
      | none =>
        rw [hfind] at hsome
        dsimp only at hsome
        exact absurd hsome (by simp)
      | some q =>
        rw [hfind] at hsome
        dsimp only at hsome
        by_cases ha : q.2.active = true
        · rw [if_pos ha] at hsome
          cases hsome
          exact ⟨List.mem_of_find?_eq_some hfind, ha⟩
        · rw [if_neg ha] at hsome
          exact absurd hsome (by simp)

/-- C8 (amended): the variable-identifying key is never an active dimension.
If the variable key is requested as an explicit dimension name, dimension
building raises the fatal error naming the conflicting keys and the variable
key; if an active dimension's name, key or alias contains the variable key at
update time, update raises a fatal error; and the consistency phase of
dimension building never returns a dimension set containing a dimension
related to the variable key — such candidates are silently deactivated (by
the variable-key dimension's own consistency check) rather than reported. -/
theorem variable_key_never_active_dim
    (vk : String) (vkd : Dim) (dims : List (String × Dim)) (core : List String)
    (hname : vkd.name = vk) (hactive : vkd.active = true) :
    (∀ result, Dims.initCheckPhase vk vkd dims core = .ok result →
      ∀ p ∈ result, p.2.active = true ∧ p.2.containsKey vk = false) ∧
    (∀ names : List String, vk ∈ names →
      ∃ msg, initialVarKeyCheck names vk = .error msg) ∧
    (∀ (dsIdx : String → List Value) (d : Dim), d.active = true →
      d.containsKey vk = true → ∃ msg, Dim.update vk dsIdx d = .error msg) := by
  refine ⟨?_, ?_, ?_⟩
  · intro result hok p hp
    have heq : runChecks (("__var_key_dim__", vkd) :: dims)
        = runChecksAux dims.length 1 (checkStep (("__var_key_dim__", vkd) :: dims) 0) := by
      unfold runChecks
      rfl
    have hsAll : List.Forall₂ PairStep (("__var_key_dim__", vkd) :: dims)
        (runChecks (("__var_key_dim__", vkd) :: dims)) := by
      unfold runChecks
      exact listStep_runChecksAux _ _ _
    have hbase : ∀ q ∈ (checkStep (("__var_key_dim__", vkd) :: dims) 0).drop 1,
        q.2.containsKey vk = true → q.2.active = false := by
      unfold checkStep
      dsimp only [List.get?]
      rw [if_pos hactive]
      unfold deactivatePlain
      simp only [deactivatePlainFrom]
      intro q hq hcont
      have hq2 : q ∈ deactivatePlainFrom (vkd.name :: vkd.key :: vkd.drop) (some 0) 1 dims := by
        simpa using hq
      exact deactivatePlainFrom_kills
        (by rw [hname]; exact List.mem_cons_self _ _) dims 1 (le_refl 1) q hq2 hcont
    have hQ : ∀ q ∈ (runChecks (("__var_key_dim__", vkd) :: dims)).drop 1,
        q.2.containsKey vk = true → q.2.active = false := by
      rw [heq]
      exact qtail_runChecksAux dims.length 1 _ hbase
    cases hck : runChecks (("__var_key_dim__", vkd) :: dims) with
    | nil =>
      rw [hck] at hsAll
      cases hsAll
    | cons c0 crest =>
      rw [hck] at hsAll hQ
      have hp0 : PairStep ("__var_key_dim__", vkd) c0 := by
        cases hsAll
        assumption
      have hc0cont : c0.2.containsKey vk = true := by
        rw [dimStep_containsKey hp0.2 vk]
        simp [Dim.containsKey, hname]
      have hQ2 : ∀ q ∈ crest, q.2.containsKey vk = true → q.2.active = false := by
        intro q hq
        exact hQ q (by simpa using hq)
      have hstep0 : ∀ q ∈ (deactivateFullStep ["__var_key_dim__", vk]
            (c0 :: crest, ([] : List String)) 0).1,
          q.2.containsKey vk = true → q.2.active = false := by
        unfold deactivateFullStep
        dsimp only [List.get?]
        by_cases hcc : (c0.2.active = true ∧
            ((["__var_key_dim__", vk].any fun k => c0.2.containsKey k) = true))
        · rw [if_pos hcc]
          dsimp only
          refine pvk_preserved (listStep_deactivatePlainFrom _ _ _ _) ?_
          intro q hq hcont
          simp only [List.set] at hq
          rcases List.mem_cons.mp hq with rfl | hq
          · simp [deact]
          · exact hQ2 q hq hcont
        · rw [if_neg hcc]
          intro q hq hcont
          rcases List.mem_cons.mp hq with rfl | hq
          · cases hb : q.2.active with
            | false => rfl
            | true =>
              exact absurd ⟨hb, List.any_eq_true.mpr ⟨vk, by simp, hc0cont⟩⟩ hcc
          · exact hQ2 q hq hcont
      have hPdc : ∀ q ∈ (deactivateFull (c0 :: crest) ["__var_key_dim__", vk]).1,
          q.2.containsKey vk = true → q.2.active = false := by
        unfold deactivateFull
        exact pvk_deactivateFullAux _ crest.length 1 _ hstep0
      simp only [Dims.initCheckPhase] at hok
      rw [hck] at hok
      have hres : result
          = finalActiveDims core (deactivateFull (c0 :: crest) ["__var_key_dim__", vk]).1 := by
        split at hok
        · split at hok
          · split at hok
            · exact Except.noConfusion hok
            · injection hok with h
              exact h.symm
          · exact Except.noConfusion hok
        · injection hok with h
          exact h.symm
      subst hres
      have hm := finalActiveDims_mem core _ p hp
      refine ⟨hm.2, ?_⟩
      cases hc : p.2.containsKey vk with
      | false => rfl
      | true => exact absurd hm.2 (by simp [hPdc p hm.1 hc])
  · intro names hn
    have hne : names.filter (fun k => ([vk] : List String).contains k) ≠ [] := by
      intro he
      have hmem : vk ∈ names.filter (fun k => ([vk] : List String).contains k) :=
        List.mem_filter.mpr ⟨hn, by simp⟩
      rw [he] at hmem
      simp at hmem
    refine ⟨var_dim_found_error_message vk
      (names.filter (fun k => ([vk] : List String).contains k)), ?_⟩
    unfold initialVarKeyCheck
    rw [if_pos hne]
  · intro dsIdx d hact hcont
    refine ⟨"Variable key " ++ vk ++ " cannot be in dimension=" ++ d.name, ?_⟩
    unfold Dim.update
    rw [if_neg (by simp [hact]), if_pos hcont]

/-- C8 counterexample: with variable key "realization", the candidate
ensemble dimension (dict key "number") carries "realization" in its alias
set, yet the consistency phase of `Dims.__init__` raises no fatal error: the
conflicting dimension is silently deactivated and an empty active set is
returned. -/
theorem var_key_alias_silently_deactivated :
    (NumberDim "number").containsKey "realization" = true ∧
    Dims.initCheckPhase "realization" (NumberDim "realization")
      [("number", NumberDim "number")] ["number"] = .ok [] :=
  ⟨rfl, rfl⟩

/-- Witness for the amended C8 at a concrete input: variable key "param",
its generic variable-key dimension, and a single level dimension. -/
theorem variable_key_never_active_dim_witness :
    ((OtherDim "param").name = "param" ∧ (OtherDim "param").active = true) ∧
    ((∀ result, Dims.initCheckPhase "param" (OtherDim "param")
        [("levelist", LevelDim "levelist")] ["levelist"] = .ok result →
      ∀ p ∈ result, p.2.active = true ∧ p.2.containsKey "param" = false) ∧
    (∀ names : List String, "param" ∈ names →
      ∃ msg, initialVarKeyCheck names "param" = .error msg) ∧
    (∀ (dsIdx : String → List Value) (d : Dim), d.active = true →
      d.containsKey "param" = true → ∃ msg, Dim.update "param" dsIdx d = .error msg)) :=
  ⟨⟨rfl, rfl⟩, variable_key_never_active_dim "param" (OtherDim "param")
    [("levelist", LevelDim "levelist")] ["levelist"] rfl rfl⟩
